import Mathlib

/-!
Proposal listing and metrics enrichment (`tequilapi/endpoints/proposals.go`).

A shallow embedding of the proposals endpoint: the response structures, the
representation mapper `proposalToRes`, the slice mapper `mapProposalsToRes`, the
enrichment steps `noMetrics` and `addMetrics`, and the request handler `List`.

Conventions of the embedding:

* a Go `string` is a Lean `String`; only concatenation and equality are used;
* a Go `int` is an `Int` (the identifier is copied, never computed with);
* `json.RawMessage` is a byte slice that may be `nil`: `Option (List UInt8)`,
  where `none` is the `nil` slice;
* the `map[string]json.RawMessage` built by `addMetrics` is an association list
  with the assignment and lookup of a Go map;
* `metrics.Parse` lives in another package; it is a parameter of the embedding.
-/

namespace Proposals

/-! ## Response structures -/

/-- The Go type `json.RawMessage`: a byte slice, `none` being the `nil` slice. -/
abbrev RawMessage := Option (List UInt8)

/-- The struct `locationRes`. -/
structure locationRes where
  ASN : String
  Country : String
  City : String
  deriving DecidableEq, Repr

/-- The struct `serviceDefinitionRes`. -/
structure serviceDefinitionRes where
  LocationOriginate : locationRes
  deriving DecidableEq, Repr

/-- The struct `proposalRes`. `Metrics` is tagged `omitempty`. -/
structure proposalRes where
  ID : Int
  ProviderID : String
  ServiceType : String
  ServiceDefinition : serviceDefinitionRes
  Metrics : RawMessage
  deriving DecidableEq, Repr

/-- The struct `proposalsRes`, the body of a successful response. -/
structure proposalsRes where
  Proposals : List proposalRes
  deriving DecidableEq, Repr

/-- The zero value of `proposalRes`, as produced by `make` and by `var`. -/
def proposalRes.zero : proposalRes :=
  { ID := 0, ProviderID := "", ServiceType := "",
    ServiceDefinition := { LocationOriginate := { ASN := "", Country := "", City := "" } },
    Metrics := none }

/-- Whether the `omitempty` tag leaves the `metrics` field out of the encoded
object: a slice is empty when its length is zero, `nil` included. -/
def metricsOmitted (m : RawMessage) : Bool :=
  match m with
  | none => true
  | some bytes => bytes.length == 0

/-! ## The join key -/

/-- The join key of `addMetrics`, the expression
`p.ProviderID+"-"+p.ServiceType` used both when the index is filled and when it
is read. -/
def proposalKey (p : proposalRes) : String :=
  p.ProviderID ++ "-" ++ p.ServiceType

/-- A string without the delimiter of the join key. -/
def dashFree (s : String) : Prop := '-' ∉ s.data

instance (s : String) : Decidable (dashFree s) := by
  unfold dashFree; infer_instance

/-! ## The proposals received from the discovery service -/

/-- Modelled from the spec: the type `dto_discovery.Location` is declared in the
package `service_discovery/dto`; the spec gives the origin location an autonomous-system
number, a country and a city, all strings that may be empty. -/
structure Location where
  ASN : String
  Country : String
  City : String
  deriving DecidableEq, Repr

/-- Modelled from the spec: the type `dto_discovery.ServiceDefinition` is declared
in the package `service_discovery/dto`; the endpoint only calls `GetLocation()` on it, and the
spec nests one origin location in every service definition. -/
structure ServiceDefinition where
  GetLocation : Location
  deriving DecidableEq, Repr

/-- Modelled from the spec: the type `dto_discovery.ServiceProposal` is declared
in the package `service_discovery/dto`; these are the fields `proposalToRes` reads, with the
types the spec gives them. -/
structure ServiceProposal where
  ID : Int
  ProviderID : String
  ServiceType : String
  ServiceDefinition : ServiceDefinition
  deriving DecidableEq, Repr

/-! ## Mapping proposals to their representation -/

/-- The function `proposalToRes`. The composite literal leaves `Metrics` at its
zero value, the `nil` slice. -/
def proposalToRes (p : ServiceProposal) : proposalRes :=
  { ID := p.ID
    ProviderID := p.ProviderID
    ServiceType := p.ServiceType
    ServiceDefinition :=
      { LocationOriginate :=
          { ASN := p.ServiceDefinition.GetLocation.ASN
            Country := p.ServiceDefinition.GetLocation.Country
            City := p.ServiceDefinition.GetLocation.City } }
    Metrics := none }

/-- The `for i, proposal := range proposalArry` loop of `mapProposalsToRes`:
`i` is the index of the next element, `arr` the slice being filled. -/
def mapLoop (f : ServiceProposal → proposalRes) (metrics : proposalRes → proposalRes) :
    Nat → List ServiceProposal → List proposalRes → List proposalRes
  | _, [], arr => arr
  | i, proposal :: rest, arr => mapLoop f metrics (i + 1) rest (arr.set i (metrics (f proposal)))

/-- The function `mapProposalsToRes`: a slice of `len(proposalArry)` zero values
is made, then filled index by index. -/
def mapProposalsToRes (proposalArry : List ServiceProposal)
    (f : ServiceProposal → proposalRes) (metrics : proposalRes → proposalRes) :
    List proposalRes :=
  mapLoop f metrics 0 proposalArry (List.replicate proposalArry.length proposalRes.zero)

/-! ## The metrics index -/

/-- A Go `map[string]V` as an association list without repeated keys. -/
abbrev GoMap (V : Type) := List (String × V)

/-- The assignment `m[k] = v`: an earlier value under `k` is replaced. -/
def mapAssign {V : Type} (m : GoMap V) (k : String) (v : V) : GoMap V :=
  (k, v) :: m.filter (fun e => e.1 != k)

/-- The lookup `v, ok := m[k]`: `none` when `ok` is false. -/
def mapLookup {V : Type} (m : GoMap V) (k : String) : Option V :=
  match m with
  | [] => none
  | (k', v) :: rest => if k' = k then some v else mapLookup rest k

/-- The anonymous struct `struct{ ProposalID proposalRes }` that `addMetrics`
declares once, before its loop, and hands to every call of `metrics.Parse`. -/
structure parsedProposal where
  ProposalID : proposalRes
  deriving DecidableEq, Repr

/-- The signature of `metrics.Parse(m, &proposal)`, a function of another package:
given a quality record and the current contents of the destination it either
fails (`none`, for `err != nil`) or returns the raw payload together with the new
contents of the destination. -/
abbrev ParseFn (M : Type) := M → parsedProposal → Option (RawMessage × parsedProposal)

/-- The contents of the destination before the first call of `metrics.Parse`:
the zero value that `var proposal` declares. -/
def freshProposal : parsedProposal := { ProposalID := proposalRes.zero }

/-- The bytes of `[]byte("{}")`. -/
def emptyObject : List UInt8 := [0x7b, 0x7d]

/-- The function `noMetrics`. -/
def noMetrics (p : proposalRes) : proposalRes := p

/-- The `for _, m := range receivedMetrics` loop of `addMetrics`. `proposal` is
the destination shared by all iterations, `proposalsMetrics` the map filled so
far; `none` is the early `return noMetrics`. -/
def indexLoop {M : Type} (Parse : ParseFn M) :
    List M → parsedProposal → GoMap RawMessage → Option (GoMap RawMessage)
  | [], _, proposalsMetrics => some proposalsMetrics
  | m :: rest, proposal, proposalsMetrics =>
    match Parse m proposal with
    | none => none
    | some (json, proposal') =>
      let p := proposal'.ProposalID
      indexLoop Parse rest proposal' (mapAssign proposalsMetrics (proposalKey p) json)

/-- The function `addMetrics`. Its argument `receivedMetrics` is the batch that
`mc.ProposalsMetrics()` returned. -/
def addMetrics {M : Type} (Parse : ParseFn M) (receivedMetrics : List M) :
    proposalRes → proposalRes :=
  match indexLoop Parse receivedMetrics freshProposal [] with
  | none => noMetrics
  | some proposalsMetrics => fun p =>
    match mapLookup proposalsMetrics (proposalKey p) with
    | some metrics => { p with Metrics := metrics }
    | none => { p with Metrics := some emptyObject }

/-! ## Decoding a batch, record by record -/

/-- The decoded form of a batch: for each record, in batch order, the proposal
reference found in the destination after `metrics.Parse` and the raw payload it
returned; `none` as soon as one call fails. The destination is threaded through
the calls exactly as `addMetrics` does. -/
def decodeBatch {M : Type} (Parse : ParseFn M) :
    List M → parsedProposal → Option (List (proposalRes × RawMessage))
  | [], _ => some []
  | m :: rest, proposal =>
    match Parse m proposal with
    | none => none
    | some (json, proposal') =>
      match decodeBatch Parse rest proposal' with
      | none => none
      | some recs => some ((proposal'.ProposalID, json) :: recs)

/-- The index that the loop of `addMetrics` builds from a decoded batch: one map
assignment per record, in batch order, starting from the map `idx`. -/
def fillIndex (idx : GoMap RawMessage) (recs : List (proposalRes × RawMessage)) :
    GoMap RawMessage :=
  recs.foldl (fun m r => mapAssign m (proposalKey r.1) r.2) idx

/-- The fields of a representation other than `Metrics`. -/
def coreFields (r : proposalRes) : Int × String × String × serviceDefinitionRes :=
  (r.ID, r.ProviderID, r.ServiceType, r.ServiceDefinition)

/-! ## The request handler -/

/-- The calls the handler makes to its two collaborators. -/
inductive Call where
  | FindProposals (providerID : String)
  | ProposalsMetrics
  deriving DecidableEq, Repr

/-- What the handler writes to the response: `utils.SendError(resp, err, status)`
or `utils.WriteAsJSON(body, resp)`. -/
inductive Response (E : Type) where
  | SendError (err : E) (status : Nat)
  | WriteAsJSON (body : proposalsRes)
  deriving DecidableEq, Repr

/-- One run of the handler: the collaborator calls in the order made, and the
response written. -/
structure Run (E : Type) where
  calls : List Call
  response : Response E
  deriving DecidableEq, Repr

/-- The query of the request, `req.URL.Query()`: the values given for each key. -/
abbrev Values := String → List String

/-- The method `url.Values.Get`: the first value of the key, or the empty string. -/
def Values.Get (v : Values) (key : String) : String :=
  match v key with
  | [] => ""
  | first :: _ => first

/-- The constant `http.StatusInternalServerError`. -/
def StatusInternalServerError : Nat := 500

/-- The struct `proposalsEndpoint` with the one method each collaborator is
called through: `mysteriumClient.FindProposals` and
`mysteriumMorqaClient.ProposalsMetrics`. -/
structure proposalsEndpoint (E M : Type) where
  FindProposals : String → Except E (List ServiceProposal)
  ProposalsMetrics : Unit → List M

/-- The method `proposalsEndpoint.List`. -/
def proposalsEndpoint.List {E M : Type} (pe : proposalsEndpoint E M) (Parse : ParseFn M)
    (query : Values) : Run E :=
  let providerID := query.Get "providerId"
  let fetchConnectCounts := query.Get "fetchConnectCounts"
  match pe.FindProposals providerID with
  | .error err =>
    { calls := [Call.FindProposals providerID]
      response := Response.SendError err StatusInternalServerError }
  | .ok proposals =>
    if fetchConnectCounts = "true" then
      let addMetricsToRes := addMetrics Parse (pe.ProposalsMetrics ())
      { calls := [Call.FindProposals providerID, Call.ProposalsMetrics]
        response := Response.WriteAsJSON
          { Proposals := mapProposalsToRes proposals proposalToRes addMetricsToRes } }
    else
      { calls := [Call.FindProposals providerID]
        response := Response.WriteAsJSON
          { Proposals := mapProposalsToRes proposals proposalToRes noMetrics } }

/-- The enrichment step that `List` selects: the variable `addMetricsToRes`,
`noMetrics` unless the query value `fetchConnectCounts` is the string `true`, in
which case it is `addMetrics` applied to the batch of the quality oracle. -/
def addMetricsToRes {M : Type} (Parse : ParseFn M) (receivedMetrics : List M)
    (fetchConnectCounts : String) : proposalRes → proposalRes :=
  if fetchConnectCounts = "true" then addMetrics Parse receivedMetrics else noMetrics

/-! ## Sample collaborators -/

/-- A sample quality record: either undecodable, or a provider identifier, a
service type and a payload. -/
abbrev SampleRecord := Option (String × String × List UInt8)

/-- A sample decoder for `SampleRecord`: it overwrites the two key fields of the
destination and returns the payload. -/
def sampleParse : ParseFn SampleRecord := fun m proposal =>
  match m with
  | none => none
  | some (providerID, serviceType, payload) =>
    some (some payload,
      { ProposalID := { proposal.ProposalID with
          ProviderID := providerID, ServiceType := serviceType } })

/-- What `sampleParse` leaves of a sample record that decodes, when the
destination was fresh before the batch: the reference and the payload. -/
def sampleDecoded (providerID serviceType : String) (payload : List UInt8) :
    proposalRes × RawMessage :=
  ({ proposalRes.zero with ProviderID := providerID, ServiceType := serviceType }, some payload)

/-- The proposal of the spec's scenarios. -/
def sampleProposal : ServiceProposal :=
  { ID := 5, ProviderID := "0xP1", ServiceType := "openvpn",
    ServiceDefinition := { GetLocation := { ASN := "AS1", Country := "NL", City := "Amsterdam" } } }

/-- A second listing of the provider and service type of `sampleProposal`, with
another sequence number and another location. -/
def sampleTwin : ServiceProposal :=
  { ID := 6, ProviderID := "0xP1", ServiceType := "openvpn",
    ServiceDefinition := { GetLocation := { ASN := "AS2", Country := "LT", City := "" } } }

/-- A sample request whose enrichment flag is spelled in capitals. -/
def sampleQueryUpper : Values := fun key =>
  if key = "fetchConnectCounts" then ["TRUE"] else []

/-- A sample request without any query parameter. -/
def sampleQueryAbsent : Values := fun _ => []

/-- A sample request asking for enrichment, without provider filter. -/
def sampleQuery : Values := fun key =>
  if key = "fetchConnectCounts" then ["true"] else []

/-- A sample endpoint whose discovery client fails. -/
def sampleEndpointDown : proposalsEndpoint String SampleRecord :=
  { FindProposals := fun _ => Except.error "unavailable"
    ProposalsMetrics := fun _ => [none] }

/-- A sample endpoint whose discovery client finds the sample proposal and whose
quality oracle returns one undecodable record. -/
def sampleEndpointUp : proposalsEndpoint String SampleRecord :=
  { FindProposals := fun _ => Except.ok [sampleProposal]
    ProposalsMetrics := fun _ => [none] }

/-- The payload of the spec's scenario B, the bytes of `{"latency":42}`. -/
def samplePayload : List UInt8 :=
  [0x7b, 0x22, 0x6c, 0x61, 0x74, 0x65, 0x6e, 0x63, 0x79, 0x22, 0x3a, 0x34, 0x32, 0x7d]

/-- A sample endpoint whose discovery client finds the sample proposal and whose
quality oracle returns one record for it, with the payload of scenario B. -/
def sampleEndpointMatched : proposalsEndpoint String SampleRecord :=
  { FindProposals := fun _ => Except.ok [sampleProposal]
    ProposalsMetrics := fun _ => [some ("0xP1", "openvpn", samplePayload)] }

/-- A sample endpoint whose discovery client finds the sample proposal and whose
quality oracle returns one record for it, decoded with a payload of no byte. -/
def sampleEndpointEmptyPayload : proposalsEndpoint String SampleRecord :=
  { FindProposals := fun _ => Except.ok [sampleProposal]
    ProposalsMetrics := fun _ => [some ("0xP1", "openvpn", [])] }

/-! ## Lemmas on the join key -/

/-- A list is split in one way only at its first occurrence of a separator. -/
theorem split_first_unique {α : Type} (d : α) :
    ∀ (p₁ p₂ s₁ s₂ : List α), d ∉ p₁ → d ∉ p₂ →
      p₁ ++ d :: s₁ = p₂ ++ d :: s₂ → p₁ = p₂ ∧ s₁ = s₂
  | [], [], _, _, _, _, h => by simpa using h
  | [], y :: p₂, _, _, _, h₂, h => by
    simp only [List.nil_append, List.cons_append, List.cons.injEq] at h
    exact absurd (h.1 ▸ List.mem_cons_self y p₂) h₂
  | x :: p₁, [], _, _, h₁, _, h => by
    simp only [List.nil_append, List.cons_append, List.cons.injEq] at h
    exact absurd (h.1 ▸ List.mem_cons_self x p₁) h₁
  | x :: p₁, y :: p₂, s₁, s₂, h₁, h₂, h => by
    simp only [List.cons_append, List.cons.injEq] at h
    have ih := split_first_unique d p₁ p₂ s₁ s₂
      (fun hm => h₁ (List.mem_cons_of_mem x hm)) (fun hm => h₂ (List.mem_cons_of_mem y hm)) h.2
    exact ⟨by rw [h.1, ih.1], ih.2⟩

/-- A list is split in one way only at its last occurrence of a separator. -/
theorem split_last_unique {α : Type} (d : α) (p₁ p₂ s₁ s₂ : List α)
    (h₁ : d ∉ s₁) (h₂ : d ∉ s₂) (h : p₁ ++ d :: s₁ = p₂ ++ d :: s₂) :
    p₁ = p₂ ∧ s₁ = s₂ := by
  have hr : s₁.reverse ++ d :: p₁.reverse = s₂.reverse ++ d :: p₂.reverse := by
    have := congrArg List.reverse h
    simpa using this
  have := split_first_unique d s₁.reverse s₂.reverse p₁.reverse p₂.reverse
    (by simpa using h₁) (by simpa using h₂) hr
  exact ⟨List.reverse_injective this.2, List.reverse_injective this.1⟩

/-- The characters of a join key. -/
theorem proposalKey_data (p : proposalRes) :
    (proposalKey p).data = p.ProviderID.data ++ '-' :: p.ServiceType.data := by
  simp [proposalKey, String.data_append]

/-! ## Claims on the join key -/

/-- C1, as stated, fails: two references that differ in both fields share the
join key `a-b-c`, one having the dash in its provider identifier and the other in
its service type. -/
theorem proposalKey_collision :
    proposalKey { proposalRes.zero with ProviderID := "a-b", ServiceType := "c" }
        = proposalKey { proposalRes.zero with ProviderID := "a", ServiceType := "b-c" }
      ∧ ¬ (("a-b" : String) = "a" ∧ ("c" : String) = "b-c") := by
  decide

/-- C1, amended: when neither provider identifier contains a dash, or neither
service type does, two values have the same join key exactly when their provider
identifiers are equal and their service types are equal. -/
theorem proposalKey_eq_iff (a b : proposalRes)
    (h : (dashFree a.ProviderID ∧ dashFree b.ProviderID)
        ∨ (dashFree a.ServiceType ∧ dashFree b.ServiceType)) :
    proposalKey a = proposalKey b
      ↔ (a.ProviderID = b.ProviderID ∧ a.ServiceType = b.ServiceType) := by
  constructor
  · intro hk
    have hd : a.ProviderID.data ++ '-' :: a.ServiceType.data
        = b.ProviderID.data ++ '-' :: b.ServiceType.data := by
      rw [← proposalKey_data, ← proposalKey_data, hk]
    have hsplit : a.ProviderID.data = b.ProviderID.data
        ∧ a.ServiceType.data = b.ServiceType.data := by
      rcases h with ⟨ha, hb⟩ | ⟨ha, hb⟩
      · exact split_first_unique '-' _ _ _ _ ha hb hd
      · exact split_last_unique '-' _ _ _ _ ha hb hd
    exact ⟨String.ext hsplit.1, String.ext hsplit.2⟩
  · rintro ⟨hp, hs⟩
    simp [proposalKey, hp, hs]

/-- The amended C1 at the representation of the spec's sample proposal and a
record reference with the same provider and service type. -/
theorem proposalKey_eq_iff_witness :
    ((dashFree (proposalToRes sampleProposal).ProviderID
        ∧ dashFree (sampleDecoded "0xP1" "openvpn" samplePayload).1.ProviderID)
      ∨ (dashFree (proposalToRes sampleProposal).ServiceType
        ∧ dashFree (sampleDecoded "0xP1" "openvpn" samplePayload).1.ServiceType))
    ∧ (proposalKey (proposalToRes sampleProposal)
          = proposalKey (sampleDecoded "0xP1" "openvpn" samplePayload).1
      ↔ ((proposalToRes sampleProposal).ProviderID
            = (sampleDecoded "0xP1" "openvpn" samplePayload).1.ProviderID
        ∧ (proposalToRes sampleProposal).ServiceType
            = (sampleDecoded "0xP1" "openvpn" samplePayload).1.ServiceType)) :=
  ⟨by decide, proposalKey_eq_iff _ _ (by decide)⟩

/-! ## Lemmas on the slice mapper -/

/-- The loop of `mapProposalsToRes` overwrites, from the index reached, as many
elements as there are proposals left, and nothing else. -/
theorem mapLoop_fill (f : ServiceProposal → proposalRes) (g : proposalRes → proposalRes) :
    ∀ (P : List ServiceProposal) (pre zs post : List proposalRes), zs.length = P.length →
      mapLoop f g pre.length P (pre ++ zs ++ post) = pre ++ P.map (fun x => g (f x)) ++ post
  | [], pre, zs, post, h => by
    have hz : zs = [] := List.length_eq_zero.mp h
    simp [mapLoop, hz]
  | _ :: _, _, [], _, h => by simp at h
  | x :: P, pre, z :: zs, post, h => by
    have ih := mapLoop_fill f g P (pre ++ [g (f x)]) zs post (by simpa using h)
    have hset : (pre ++ (z :: zs) ++ post).set pre.length (g (f x))
        = (pre ++ [g (f x)]) ++ zs ++ post := by
      simp [List.append_assoc]
    have hl : pre.length + 1 = (pre ++ [g (f x)]).length := by simp
    simp only [mapLoop]
    rw [hset, hl, ih]
    simp

/-- The slice returned by `mapProposalsToRes` is the elementwise image of its
argument. -/
theorem mapProposalsToRes_eq_map (P : List ServiceProposal)
    (f : ServiceProposal → proposalRes) (g : proposalRes → proposalRes) :
    mapProposalsToRes P f g = P.map (fun x => g (f x)) := by
  have h := mapLoop_fill f g P [] (List.replicate P.length proposalRes.zero) [] (by simp)
  simpa [mapProposalsToRes] using h

/-! ## Lemmas on the metrics index -/

/-- Removing the entries of one key leaves the lookups of other keys alone. -/
theorem mapLookup_filter_ne {V : Type} (k k' : String) (h : k ≠ k') :
    ∀ m : GoMap V, mapLookup (m.filter (fun e => e.1 != k)) k' = mapLookup m k'
  | [] => rfl
  | (a, v) :: rest => by
    have ih := mapLookup_filter_ne k k' h rest
    by_cases hak : a = k
    · subst hak
      simp [List.filter_cons, mapLookup, h, ih]
    · have hne : (a != k) = true := bne_iff_ne.mpr hak
      by_cases hak' : a = k'
      · rw [List.filter_cons, if_pos hne]
        simp [mapLookup, hak']
      · simp [List.filter_cons, mapLookup, hne, hak', ih]

/-- Reading a key just assigned gives the value assigned. -/
theorem mapLookup_assign_self {V : Type} (m : GoMap V) (k : String) (v : V) :
    mapLookup (mapAssign m k v) k = some v := by
  simp [mapAssign, mapLookup]

/-- An assignment leaves the other keys alone. -/
theorem mapLookup_assign_ne {V : Type} (m : GoMap V) (k k' : String) (v : V) (h : k ≠ k') :
    mapLookup (mapAssign m k v) k' = mapLookup m k' := by
  simp [mapAssign, mapLookup, h, mapLookup_filter_ne k k' h m]

/-- Records with other keys do not change what is stored under a key. -/
theorem mapLookup_fill_absent (k : String) :
    ∀ (recs : List (proposalRes × RawMessage)) (idx : GoMap RawMessage),
      (∀ q ∈ recs, proposalKey q.1 ≠ k) → mapLookup (fillIndex idx recs) k = mapLookup idx k
  | [], _, _ => rfl
  | r :: recs, idx, h => by
    have ih := mapLookup_fill_absent k recs (mapAssign idx (proposalKey r.1) r.2)
      (fun q hq => h q (List.mem_cons_of_mem r hq))
    have hr : proposalKey r.1 ≠ k := h r (List.mem_cons_self r recs)
    simp only [fillIndex, List.foldl_cons] at ih ⊢
    rw [ih, mapLookup_assign_ne _ _ _ _ hr]

/-- What is stored under a key is the payload of the last record with that key. -/
theorem mapLookup_fill_last (k : String) (idx : GoMap RawMessage)
    (pre post : List (proposalRes × RawMessage)) (r : proposalRes × RawMessage)
    (hr : proposalKey r.1 = k) (hpost : ∀ q ∈ post, proposalKey q.1 ≠ k) :
    mapLookup (fillIndex idx (pre ++ r :: post)) k = some r.2 := by
  have h := mapLookup_fill_absent k post
    (mapAssign (fillIndex idx pre) (proposalKey r.1) r.2) hpost
  simp only [fillIndex, List.foldl_append, List.foldl_cons] at h ⊢
  rw [h, hr, mapLookup_assign_self]

/-- The loop of `addMetrics` fails exactly when the batch does not decode, and
otherwise builds the index of the decoded batch. -/
theorem indexLoop_eq_fill {M : Type} (Parse : ParseFn M) :
    ∀ (batch : List M) (dst : parsedProposal) (idx : GoMap RawMessage),
      indexLoop Parse batch dst idx = (decodeBatch Parse batch dst).map (fillIndex idx)
  | [], _, _ => rfl
  | m :: rest, dst, idx => by
    cases hp : Parse m dst with
    | none => simp [indexLoop, decodeBatch, hp]
    | some out =>
      obtain ⟨json, dst'⟩ := out
      have ih := indexLoop_eq_fill Parse rest dst' (mapAssign idx (proposalKey dst'.ProposalID) json)
      cases hd : decodeBatch Parse rest dst' with
      | none => simp [indexLoop, decodeBatch, hp, hd, ih]
      | some recs => simp [indexLoop, decodeBatch, hp, hd, ih, fillIndex]

/-- A record that cannot be decoded makes the loop of `addMetrics` return early,
wherever it stands in the batch. -/
theorem indexLoop_none_of_mem {M : Type} (Parse : ParseFn M) :
    ∀ (batch : List M) (dst : parsedProposal) (idx : GoMap RawMessage),
      (∃ m ∈ batch, ∀ d, Parse m d = none) → indexLoop Parse batch dst idx = none
  | [], _, _, h => by simp at h
  | m :: rest, dst, idx, h => by
    cases hp : Parse m dst with
    | none => simp [indexLoop, hp]
    | some out =>
      obtain ⟨json, dst'⟩ := out
      obtain ⟨m', hm', hfail⟩ := h
      have hrest : m' ∈ rest := by
        rcases List.mem_cons.mp hm' with rfl | hmem
        · rw [hfail dst] at hp; cases hp
        · exact hmem
      simp only [indexLoop, hp]
      exact indexLoop_none_of_mem Parse rest dst' _ ⟨m', hrest, hfail⟩

/-- The function that `addMetrics` returns for a batch that decodes. -/
theorem addMetrics_of_decoded {M : Type} (Parse : ParseFn M) (batch : List M)
    (recs : List (proposalRes × RawMessage))
    (h : decodeBatch Parse batch freshProposal = some recs) (p : proposalRes) :
    addMetrics Parse batch p =
      match mapLookup (fillIndex [] recs) (proposalKey p) with
      | some metrics => { p with Metrics := metrics }
      | none => { p with Metrics := some emptyObject } := by
  simp [addMetrics, indexLoop_eq_fill, h]

/-- The function that `addMetrics` returns changes no field but `Metrics`. -/
theorem addMetrics_coreFields {M : Type} (Parse : ParseFn M) (batch : List M)
    (p : proposalRes) : coreFields (addMetrics Parse batch p) = coreFields p := by
  unfold addMetrics
  cases indexLoop Parse batch freshProposal [] with
  | none => rfl
  | some idx =>
    simp only
    cases mapLookup idx (proposalKey p) <;> rfl

/-! ## Claims on degradation -/

/-- C2: when some record of the batch cannot be decoded, at whatever position,
`addMetrics` returns the function `noMetrics`; the listing built with it is the
listing built without enrichment, and none of its elements carries metrics. -/
theorem addMetrics_fail_fast {M : Type} (Parse : ParseFn M) (batch : List M)
    (P : List ServiceProposal) (h : ∃ m ∈ batch, ∀ dst, Parse m dst = none) :
    addMetrics Parse batch = noMetrics
      ∧ mapProposalsToRes P proposalToRes (addMetrics Parse batch)
          = mapProposalsToRes P proposalToRes noMetrics
      ∧ ∀ r ∈ mapProposalsToRes P proposalToRes (addMetrics Parse batch), r.Metrics = none := by
  have hno : addMetrics Parse batch = noMetrics := by
    simp [addMetrics, indexLoop_none_of_mem Parse batch freshProposal [] h]
  refine ⟨hno, by rw [hno], ?_⟩
  intro r hr
  rw [hno, mapProposalsToRes_eq_map] at hr
  obtain ⟨x, _, rfl⟩ := List.mem_map.mp hr
  rfl

/-- C2 at a batch whose second record cannot be decoded, the first one matching
the proposal listed. -/
theorem addMetrics_fail_fast_witness :
    (∃ m ∈ [some ("0xP1", "openvpn", samplePayload), (none : SampleRecord)],
        ∀ dst, sampleParse m dst = none)
      ∧ (addMetrics sampleParse [some ("0xP1", "openvpn", samplePayload), none] = noMetrics
        ∧ mapProposalsToRes [sampleProposal] proposalToRes
              (addMetrics sampleParse [some ("0xP1", "openvpn", samplePayload), none])
            = mapProposalsToRes [sampleProposal] proposalToRes noMetrics
        ∧ ∀ r ∈ mapProposalsToRes [sampleProposal] proposalToRes
              (addMetrics sampleParse [some ("0xP1", "openvpn", samplePayload), none]),
            r.Metrics = none) :=
  ⟨⟨none, by simp, fun _ => rfl⟩,
    addMetrics_fail_fast sampleParse _ [sampleProposal] ⟨none, by simp, fun _ => rfl⟩⟩

/-- C3, as stated, fails: for the proposal of the spec's scenarios, the listing
enriched from an empty batch carries the metrics `{}`, while the listing enriched
from a batch whose only record cannot be decoded carries none. -/
theorem empty_batch_differs_from_decode_failure :
    (∀ dst, sampleParse (none : SampleRecord) dst = none)
      ∧ mapProposalsToRes [sampleProposal] proposalToRes (addMetrics sampleParse [])
          ≠ mapProposalsToRes [sampleProposal] proposalToRes (addMetrics sampleParse [none])
      ∧ mapProposalsToRes [sampleProposal] proposalToRes (addMetrics sampleParse [])
          ≠ mapProposalsToRes [sampleProposal] proposalToRes noMetrics :=
  ⟨fun _ => rfl, by decide, by decide⟩

/-- C3, amended: with an empty batch every element of the listing is the
representation of its proposal with the metrics set to the empty object `{}`;
for a proposal list that is not empty this listing differs from the one produced
when a record of the batch cannot be decoded. -/
theorem addMetrics_empty_batch {M : Type} (Parse : ParseFn M) (P : List ServiceProposal) :
    mapProposalsToRes P proposalToRes (addMetrics Parse [])
        = P.map (fun p => { proposalToRes p with Metrics := some [0x7b, 0x7d] })
      ∧ (P ≠ [] → ∀ batch : List M, (∃ m ∈ batch, ∀ dst, Parse m dst = none) →
          mapProposalsToRes P proposalToRes (addMetrics Parse [])
            ≠ mapProposalsToRes P proposalToRes (addMetrics Parse batch)) := by
  have hempty : mapProposalsToRes P proposalToRes (addMetrics Parse [])
      = P.map (fun p => { proposalToRes p with Metrics := some [0x7b, 0x7d] }) := by
    rw [mapProposalsToRes_eq_map]
    rfl
  refine ⟨hempty, ?_⟩
  intro hP batch hfail
  have hno : addMetrics Parse batch = noMetrics := by
    simp [addMetrics, indexLoop_none_of_mem Parse batch freshProposal [] hfail]
  rw [hempty, hno, mapProposalsToRes_eq_map]
  cases P with
  | nil => exact absurd rfl hP
  | cons x rest =>
    intro heq
    have hhead := (List.cons.inj heq).1
    have hmetrics := congrArg proposalRes.Metrics hhead
    simp [noMetrics, proposalToRes] at hmetrics

/-- The amended C3 at the sample proposal, the failing batch holding a decodable
record followed by an undecodable one. -/
theorem addMetrics_empty_batch_witness :
    [sampleProposal] ≠ []
      ∧ (∃ m ∈ [some ("0xP1", "openvpn", samplePayload), (none : SampleRecord)],
          ∀ dst, sampleParse m dst = none)
      ∧ mapProposalsToRes [sampleProposal] proposalToRes (addMetrics sampleParse [])
          = [sampleProposal].map
              (fun p => { proposalToRes p with Metrics := some [0x7b, 0x7d] })
      ∧ mapProposalsToRes [sampleProposal] proposalToRes (addMetrics sampleParse [])
          ≠ mapProposalsToRes [sampleProposal] proposalToRes
              (addMetrics sampleParse [some ("0xP1", "openvpn", samplePayload), none]) :=
  ⟨by decide, ⟨none, by simp, fun _ => rfl⟩,
    (addMetrics_empty_batch sampleParse [sampleProposal]).1,
    (addMetrics_empty_batch sampleParse [sampleProposal]).2 (by decide)
      [some ("0xP1", "openvpn", samplePayload), none] ⟨none, by simp, fun _ => rfl⟩⟩

/-! ## Claims on the join -/

/-- C4: when every record of the batch decodes and exactly one of them, `r`, has
the join key of the representation `p`, the function returned by `addMetrics`
sets the metrics of `p` to the raw payload decoded with `r`, and changes nothing
else. -/
theorem addMetrics_matched {M : Type} (Parse : ParseFn M) (batch : List M)
    (recs : List (proposalRes × RawMessage)) (r : proposalRes × RawMessage) (p : proposalRes)
    (hdec : decodeBatch Parse batch freshProposal = some recs)
    (hone : recs.filter (fun q => decide (proposalKey q.1 = proposalKey p)) = [r]) :
    addMetrics Parse batch p = { p with Metrics := r.2 } := by
  obtain ⟨pre, post, hsplit, _, hr, hpost⟩ := List.filter_eq_cons_iff.mp hone
  have hkey : proposalKey r.1 = proposalKey p := by simpa using hr
  have habsent : ∀ q ∈ post, proposalKey q.1 ≠ proposalKey p := by
    intro q hq
    have := List.filter_eq_nil_iff.mp hpost q hq
    simpa using this
  rw [addMetrics_of_decoded Parse batch recs hdec, hsplit,
    mapLookup_fill_last (proposalKey p) [] pre post r hkey habsent]

/-- C4 at the spec's scenario B, with a record of another provider before the
matching one. -/
theorem addMetrics_matched_witness :
    decodeBatch sampleParse
        [some ("0xP2", "openvpn", [0x31]), some ("0xP1", "openvpn", samplePayload)] freshProposal
        = some [sampleDecoded "0xP2" "openvpn" [0x31], sampleDecoded "0xP1" "openvpn" samplePayload]
      ∧ [sampleDecoded "0xP2" "openvpn" [0x31], sampleDecoded "0xP1" "openvpn" samplePayload].filter
            (fun q => decide (proposalKey q.1 = proposalKey (proposalToRes sampleProposal)))
          = [sampleDecoded "0xP1" "openvpn" samplePayload]
      ∧ addMetrics sampleParse
            [some ("0xP2", "openvpn", [0x31]), some ("0xP1", "openvpn", samplePayload)]
            (proposalToRes sampleProposal)
          = { proposalToRes sampleProposal with Metrics := some samplePayload } :=
  ⟨by decide, by decide,
    addMetrics_matched sampleParse _
      [sampleDecoded "0xP2" "openvpn" [0x31], sampleDecoded "0xP1" "openvpn" samplePayload]
      (sampleDecoded "0xP1" "openvpn" samplePayload)
      (proposalToRes sampleProposal) (by decide) (by decide)⟩

/-- C5: when every record of the batch decodes and none has the join key of the
representation `p`, the function returned by `addMetrics` sets the metrics of `p`
to the two bytes `{}`, and changes nothing else. -/
theorem addMetrics_unmatched {M : Type} (Parse : ParseFn M) (batch : List M)
    (recs : List (proposalRes × RawMessage)) (p : proposalRes)
    (hdec : decodeBatch Parse batch freshProposal = some recs)
    (hnone : ∀ q ∈ recs, proposalKey q.1 ≠ proposalKey p) :
    addMetrics Parse batch p = { p with Metrics := some [0x7b, 0x7d] } := by
  rw [addMetrics_of_decoded Parse batch recs hdec,
    mapLookup_fill_absent (proposalKey p) recs [] hnone]
  rfl

/-- C5 at the spec's scenario C: the only record is for another provider. -/
theorem addMetrics_unmatched_witness :
    decodeBatch sampleParse [some ("0xP2", "openvpn", samplePayload)] freshProposal
        = some [sampleDecoded "0xP2" "openvpn" samplePayload]
      ∧ (∀ q ∈ [sampleDecoded "0xP2" "openvpn" samplePayload],
          proposalKey q.1 ≠ proposalKey (proposalToRes sampleProposal))
      ∧ addMetrics sampleParse [some ("0xP2", "openvpn", samplePayload)]
            (proposalToRes sampleProposal)
          = { proposalToRes sampleProposal with Metrics := some [0x7b, 0x7d] } :=
  ⟨by decide, by decide,
    addMetrics_unmatched sampleParse _ [sampleDecoded "0xP2" "openvpn" samplePayload]
      (proposalToRes sampleProposal) (by decide) (by decide)⟩

/-- C10: when every record of the batch decodes and `r` is the last record, in
batch order, with the join key of the representation `p`, the metrics attached to
`p` are the payload decoded with `r`, whatever records with that key come before. -/
theorem addMetrics_last_write_wins {M : Type} (Parse : ParseFn M) (batch : List M)
    (pre post : List (proposalRes × RawMessage)) (r : proposalRes × RawMessage) (p : proposalRes)
    (hdec : decodeBatch Parse batch freshProposal = some (pre ++ r :: post))
    (hkey : proposalKey r.1 = proposalKey p)
    (hlast : ∀ q ∈ post, proposalKey q.1 ≠ proposalKey p) :
    (addMetrics Parse batch p).Metrics = r.2 := by
  rw [addMetrics_of_decoded Parse batch _ hdec,
    mapLookup_fill_last (proposalKey p) [] pre post r hkey hlast]

/-- C10 at a batch with two records for the sample proposal, followed by a record
of another provider: the second payload is attached. -/
theorem addMetrics_last_write_wins_witness :
    decodeBatch sampleParse
        [some ("0xP1", "openvpn", [0x31]), some ("0xP1", "openvpn", samplePayload),
          some ("0xP2", "openvpn", [0x32])] freshProposal
        = some ([sampleDecoded "0xP1" "openvpn" [0x31]]
            ++ sampleDecoded "0xP1" "openvpn" samplePayload
              :: [sampleDecoded "0xP2" "openvpn" [0x32]])
      ∧ proposalKey (sampleDecoded "0xP1" "openvpn" [0x31]).1
          = proposalKey (proposalToRes sampleProposal)
      ∧ proposalKey (sampleDecoded "0xP1" "openvpn" samplePayload).1
          = proposalKey (proposalToRes sampleProposal)
      ∧ (∀ q ∈ [sampleDecoded "0xP2" "openvpn" [0x32]],
          proposalKey q.1 ≠ proposalKey (proposalToRes sampleProposal))
      ∧ (addMetrics sampleParse
            [some ("0xP1", "openvpn", [0x31]), some ("0xP1", "openvpn", samplePayload),
              some ("0xP2", "openvpn", [0x32])]
            (proposalToRes sampleProposal)).Metrics
          = some samplePayload :=
  ⟨by decide, by decide, by decide, by decide,
    addMetrics_last_write_wins sampleParse _ [sampleDecoded "0xP1" "openvpn" [0x31]]
      [sampleDecoded "0xP2" "openvpn" [0x32]] (sampleDecoded "0xP1" "openvpn" samplePayload)
      (proposalToRes sampleProposal) (by decide) (by decide) (by decide)⟩

/-! ## Claims on the listing -/

/-- C6: without enrichment, that is with `noMetrics` as the enrichment step, every
element of the listing has a `nil` metrics field, which `omitempty` leaves out of
the encoded object. -/
theorem noMetrics_listing_absent (P : List ServiceProposal) :
    ∀ r ∈ mapProposalsToRes P proposalToRes noMetrics,
      r.Metrics = none ∧ metricsOmitted r.Metrics = true := by
  intro r hr
  rw [mapProposalsToRes_eq_map] at hr
  obtain ⟨x, _, rfl⟩ := List.mem_map.mp hr
  exact ⟨rfl, rfl⟩

/-- C6 at the spec's scenario A. -/
theorem noMetrics_listing_absent_witness :
    proposalToRes sampleProposal ∈ mapProposalsToRes [sampleProposal] proposalToRes noMetrics
      ∧ (proposalToRes sampleProposal).Metrics = none
      ∧ metricsOmitted (proposalToRes sampleProposal).Metrics = true :=
  ⟨by decide, noMetrics_listing_absent [sampleProposal] (proposalToRes sampleProposal) (by decide)⟩

/-- C7: `mapProposalsToRes` returns a slice of the length of its argument whose
element at each index `i` is `metrics(f(P[i]))`; with `proposalToRes` and
`noMetrics`, the element at index `i` has the identifier of `P[i]`. -/
theorem mapProposalsToRes_length_order (P : List ServiceProposal)
    (f : ServiceProposal → proposalRes) (metrics : proposalRes → proposalRes) (i : Nat) :
    (mapProposalsToRes P f metrics).length = P.length
      ∧ (mapProposalsToRes P f metrics)[i]? = (P[i]?).map (fun x => metrics (f x))
      ∧ ((mapProposalsToRes P proposalToRes noMetrics)[i]?).map (fun r => r.ID)
          = (P[i]?).map (fun x => x.ID) := by
  refine ⟨?_, ?_, ?_⟩
  · rw [mapProposalsToRes_eq_map, List.length_map]
  · rw [mapProposalsToRes_eq_map, List.getElem?_map]
  · rw [mapProposalsToRes_eq_map, List.getElem?_map]
    cases P[i]? <;> rfl

/-- C8: whatever the batch, decodable or not, the enriched listing has the length
of the proposal list, and its element at each index `i` has the identifier,
provider identifier, service type and service definition of `proposalToRes(P[i])`. -/
theorem enriched_listing_frame {M : Type} (Parse : ParseFn M) (batch : List M)
    (P : List ServiceProposal) (i : Nat) :
    (mapProposalsToRes P proposalToRes (addMetrics Parse batch)).length = P.length
      ∧ ((mapProposalsToRes P proposalToRes (addMetrics Parse batch))[i]?).map coreFields
          = (P[i]?).map (fun x => coreFields (proposalToRes x)) := by
  refine ⟨?_, ?_⟩
  · rw [mapProposalsToRes_eq_map, List.length_map]
  · rw [mapProposalsToRes_eq_map, List.getElem?_map]
    cases P[i]? with
    | none => rfl
    | some x => simp [addMetrics_coreFields]

/-! ## Claims on the request handler -/

/-- C9: when `FindProposals` fails, `List` sends the error with status 500, writes
no listing and makes no call to the quality oracle; when `FindProposals` succeeds,
`List` writes a listing with one element per proposal found, in order, each with
the fields of `proposalToRes`, whatever the quality oracle and `metrics.Parse`
return. -/
theorem List_only_FindProposals_propagates {E M : Type} (pe : proposalsEndpoint E M)
    (Parse : ParseFn M) (query : Values) :
    (∀ err, pe.FindProposals (query.Get "providerId") = Except.error err →
        pe.List Parse query
            = { calls := [Call.FindProposals (query.Get "providerId")]
                response := Response.SendError err 500 }
          ∧ Call.ProposalsMetrics ∉ (pe.List Parse query).calls)
      ∧ (∀ proposals, pe.FindProposals (query.Get "providerId") = Except.ok proposals →
        ∃ body, (pe.List Parse query).response = Response.WriteAsJSON body
          ∧ body.Proposals.length = proposals.length
          ∧ body.Proposals.map coreFields
              = proposals.map (fun x => coreFields (proposalToRes x))) := by
  refine ⟨?_, ?_⟩
  · intro err herr
    simp [proposalsEndpoint.List, herr, StatusInternalServerError]
  · intro proposals hok
    by_cases hflag : query.Get "fetchConnectCounts" = "true"
    · refine ⟨⟨mapProposalsToRes proposals proposalToRes
          (addMetrics Parse (pe.ProposalsMetrics ()))⟩, ?_, ?_, ?_⟩
      · simp [proposalsEndpoint.List, hok, hflag]
      · simp [mapProposalsToRes_eq_map]
      · simp [mapProposalsToRes_eq_map, addMetrics_coreFields]
    · refine ⟨⟨mapProposalsToRes proposals proposalToRes noMetrics⟩, ?_, ?_, ?_⟩
      · simp [proposalsEndpoint.List, hok, hflag]
      · simp [mapProposalsToRes_eq_map]
      · simp [mapProposalsToRes_eq_map, noMetrics]

/-- C9 at a request asking for enrichment: once with a failing discovery client,
once with a discovery client that finds the sample proposal while the quality
oracle returns an undecodable record. -/
theorem List_only_FindProposals_propagates_witness :
    (sampleEndpointDown.FindProposals (sampleQuery.Get "providerId")
          = Except.error "unavailable"
        ∧ sampleEndpointDown.List sampleParse sampleQuery
            = { calls := [Call.FindProposals (sampleQuery.Get "providerId")]
                response := Response.SendError "unavailable" 500 }
        ∧ Call.ProposalsMetrics ∉ (sampleEndpointDown.List sampleParse sampleQuery).calls)
      ∧ (sampleEndpointUp.FindProposals (sampleQuery.Get "providerId")
          = Except.ok [sampleProposal]
        ∧ ∃ body,
          (sampleEndpointUp.List sampleParse sampleQuery).response = Response.WriteAsJSON body
            ∧ body.Proposals.length = [sampleProposal].length
            ∧ body.Proposals.map coreFields
                = [sampleProposal].map (fun x => coreFields (proposalToRes x))) :=
  ⟨⟨rfl, (List_only_FindProposals_propagates sampleEndpointDown sampleParse sampleQuery).1
      "unavailable" rfl⟩,
    ⟨rfl, (List_only_FindProposals_propagates sampleEndpointUp sampleParse sampleQuery).2
      [sampleProposal] rfl⟩⟩

/-! ## Further lemmas on the enrichment step -/

/-- The join key reads the provider identifier and the service type only. -/
theorem proposalKey_congr (p q : proposalRes) (hp : p.ProviderID = q.ProviderID)
    (hs : p.ServiceType = q.ServiceType) : proposalKey p = proposalKey q := by
  simp [proposalKey, hp, hs]

/-- The function that `addMetrics` returns, by the outcome of its loop. -/
theorem addMetrics_cases {M : Type} (Parse : ParseFn M) (batch : List M) :
    addMetrics Parse batch = noMetrics
      ∨ ∃ idx : GoMap RawMessage, addMetrics Parse batch = fun p =>
          match mapLookup idx (proposalKey p) with
          | some metrics => { p with Metrics := metrics }
          | none => { p with Metrics := some emptyObject } := by
  unfold addMetrics
  cases indexLoop Parse batch freshProposal [] with
  | none => exact Or.inl rfl
  | some idx => exact Or.inr ⟨idx, rfl⟩

/-- For a batch that decodes, the metrics that `addMetrics` attaches depend on the
join key only. -/
theorem addMetrics_metrics_of_key {M : Type} (Parse : ParseFn M) (batch : List M)
    (recs : List (proposalRes × RawMessage))
    (h : decodeBatch Parse batch freshProposal = some recs) (p q : proposalRes)
    (hk : proposalKey p = proposalKey q) :
    (addMetrics Parse batch p).Metrics = (addMetrics Parse batch q).Metrics := by
  rw [addMetrics_of_decoded Parse batch recs h, addMetrics_of_decoded Parse batch recs h, hk]
  cases mapLookup (fillIndex [] recs) (proposalKey q) <;> rfl

/-- For a batch that does not decode, `addMetrics` returns `noMetrics`. -/
theorem addMetrics_of_undecoded {M : Type} (Parse : ParseFn M) (batch : List M)
    (h : decodeBatch Parse batch freshProposal = none) :
    addMetrics Parse batch = noMetrics := by
  simp [addMetrics, indexLoop_eq_fill, h]

/-! ## Claims on duplicates, the mapper and idempotence -/

/-- C11: two representations of proposals with the same provider identifier and
the same service type, whatever their identifiers and locations, receive the same
metrics from the function returned by `addMetrics`, for every batch; when the batch
decodes this holds of any two values of `proposalRes` with those fields equal. -/
theorem addMetrics_duplicates_share {M : Type} (Parse : ParseFn M) (batch : List M) :
    (∀ a b : ServiceProposal, a.ProviderID = b.ProviderID → a.ServiceType = b.ServiceType →
        (addMetrics Parse batch (proposalToRes a)).Metrics
          = (addMetrics Parse batch (proposalToRes b)).Metrics)
      ∧ (∀ recs, decodeBatch Parse batch freshProposal = some recs →
          ∀ p q : proposalRes, p.ProviderID = q.ProviderID → p.ServiceType = q.ServiceType →
            (addMetrics Parse batch p).Metrics = (addMetrics Parse batch q).Metrics) := by
  refine ⟨?_, ?_⟩
  · intro a b hp hs
    cases hd : decodeBatch Parse batch freshProposal with
    | none => rw [addMetrics_of_undecoded Parse batch hd]; rfl
    | some recs =>
      exact addMetrics_metrics_of_key Parse batch recs hd _ _
        (proposalKey_congr _ _ hp hs)
  · intro recs hd p q hp hs
    exact addMetrics_metrics_of_key Parse batch recs hd p q (proposalKey_congr p q hp hs)

/-- C11 at the sample proposal and its twin, for a batch with one matching record. -/
theorem addMetrics_duplicates_share_witness :
    (sampleProposal.ProviderID = sampleTwin.ProviderID
        ∧ sampleProposal.ServiceType = sampleTwin.ServiceType
        ∧ (addMetrics sampleParse [some ("0xP1", "openvpn", samplePayload)]
              (proposalToRes sampleProposal)).Metrics
            = (addMetrics sampleParse [some ("0xP1", "openvpn", samplePayload)]
              (proposalToRes sampleTwin)).Metrics)
      ∧ (decodeBatch sampleParse [some ("0xP1", "openvpn", samplePayload)] freshProposal
            = some [sampleDecoded "0xP1" "openvpn" samplePayload]
        ∧ (proposalToRes sampleProposal).ProviderID
            = ({ proposalToRes sampleTwin with Metrics := some [0x31] } : proposalRes).ProviderID
        ∧ (proposalToRes sampleProposal).ServiceType
            = ({ proposalToRes sampleTwin with Metrics := some [0x31] } : proposalRes).ServiceType
        ∧ (addMetrics sampleParse [some ("0xP1", "openvpn", samplePayload)]
              (proposalToRes sampleProposal)).Metrics
            = (addMetrics sampleParse [some ("0xP1", "openvpn", samplePayload)]
              { proposalToRes sampleTwin with Metrics := some [0x31] }).Metrics) :=
  ⟨⟨rfl, rfl,
      (addMetrics_duplicates_share sampleParse [some ("0xP1", "openvpn", samplePayload)]).1
        sampleProposal sampleTwin rfl rfl⟩,
    ⟨by decide, rfl, rfl,
      (addMetrics_duplicates_share sampleParse [some ("0xP1", "openvpn", samplePayload)]).2
        [sampleDecoded "0xP1" "openvpn" samplePayload] (by decide)
        (proposalToRes sampleProposal) { proposalToRes sampleTwin with Metrics := some [0x31] }
        rfl rfl⟩⟩

/-- C12: `proposalToRes` returns, for every proposal, a representation with the
identifier, the provider identifier and the service type of the proposal and with
the autonomous-system number, country and city of the location of its service
definition, each unchanged; the metrics are left `nil`. -/
theorem proposalToRes_passes_fields (p : ServiceProposal) :
    (proposalToRes p).ID = p.ID
      ∧ (proposalToRes p).ProviderID = p.ProviderID
      ∧ (proposalToRes p).ServiceType = p.ServiceType
      ∧ (proposalToRes p).ServiceDefinition.LocationOriginate.ASN
          = p.ServiceDefinition.GetLocation.ASN
      ∧ (proposalToRes p).ServiceDefinition.LocationOriginate.Country
          = p.ServiceDefinition.GetLocation.Country
      ∧ (proposalToRes p).ServiceDefinition.LocationOriginate.City
          = p.ServiceDefinition.GetLocation.City
      ∧ (proposalToRes p).Metrics = none :=
  ⟨rfl, rfl, rfl, rfl, rfl, rfl, rfl⟩

/-- C15: applying twice the function returned by `addMetrics` gives what applying
it once gives, for every batch and every value of `proposalRes`; the same holds of
`noMetrics`. -/
theorem enrichment_idempotent {M : Type} (Parse : ParseFn M) (batch : List M)
    (p : proposalRes) :
    addMetrics Parse batch (addMetrics Parse batch p) = addMetrics Parse batch p
      ∧ noMetrics (noMetrics p) = noMetrics p := by
  refine ⟨?_, rfl⟩
  rcases addMetrics_cases Parse batch with h | ⟨idx, h⟩
  · rw [h]; rfl
  · rw [h]
    have hkey : ∀ m : RawMessage, proposalKey { p with Metrics := m } = proposalKey p :=
      fun _ => rfl
    cases hl : mapLookup idx (proposalKey p) with
    | none => simp only [hl, hkey]
    | some v => simp only [hl, hkey]

/-! ## Lemmas on the wire shapes and on the handler -/

/-- Whatever is stored under a key was already there or is the payload of a
record with that key. -/
theorem mapLookup_fill_some (k : String) (v : RawMessage) :
    ∀ (recs : List (proposalRes × RawMessage)) (idx : GoMap RawMessage),
      mapLookup (fillIndex idx recs) k = some v →
        (∃ q ∈ recs, proposalKey q.1 = k ∧ q.2 = v) ∨ mapLookup idx k = some v
  | [], _, h => Or.inr h
  | r :: recs, idx, h => by
    have h' : mapLookup (fillIndex (mapAssign idx (proposalKey r.1) r.2) recs) k = some v := by
      simpa only [fillIndex, List.foldl_cons] using h
    rcases mapLookup_fill_some k v recs _ h' with ⟨q, hq, hk, hv⟩ | hidx
    · exact Or.inl ⟨q, List.mem_cons_of_mem r hq, hk, hv⟩
    · by_cases hr : proposalKey r.1 = k
      · rw [hr, mapLookup_assign_self] at hidx
        exact Or.inl ⟨r, List.mem_cons_self r recs, hr, Option.some.inj hidx⟩
      · rw [mapLookup_assign_ne _ _ _ _ hr] at hidx
        exact Or.inr hidx

/-- The response of `List` when proposals are found: the listing built with the
enrichment step that the flag selects. -/
theorem List_response_of_found {E M : Type} (pe : proposalsEndpoint E M) (Parse : ParseFn M)
    (query : Values) (proposals : List ServiceProposal)
    (h : pe.FindProposals (query.Get "providerId") = Except.ok proposals) :
    (pe.List Parse query).response
      = Response.WriteAsJSON ⟨mapProposalsToRes proposals proposalToRes
          (addMetricsToRes Parse (pe.ProposalsMetrics ()) (query.Get "fetchConnectCounts"))⟩ := by
  by_cases hflag : query.Get "fetchConnectCounts" = "true"
  · simp [proposalsEndpoint.List, h, hflag, addMetricsToRes]
  · simp [proposalsEndpoint.List, h, hflag, addMetricsToRes]

/-- The records of a decoded batch either all have other keys than `k`, or split
at the last record with the key `k`. -/
theorem last_match_cases (k : String) :
    ∀ recs : List (proposalRes × RawMessage),
      (∀ q ∈ recs, proposalKey q.1 ≠ k)
        ∨ ∃ pre m post, recs = pre ++ m :: post ∧ proposalKey m.1 = k
            ∧ ∀ q ∈ post, proposalKey q.1 ≠ k
  | [] => Or.inl (fun _ hq => absurd hq (List.not_mem_nil _))
  | r :: recs => by
    rcases last_match_cases k recs with hnone | ⟨pre, m, post, hsplit, hkey, hlast⟩
    · by_cases hr : proposalKey r.1 = k
      · exact Or.inr ⟨[], r, recs, rfl, hr, hnone⟩
      · refine Or.inl ?_
        intro q hq
        rcases List.mem_cons.mp hq with rfl | hmem
        · exact hr
        · exact hnone q hmem
    · exact Or.inr ⟨r :: pre, m, post, by rw [hsplit]; rfl, hkey, hlast⟩

/-- The metrics that the step selected by the flag gives to the representation
of a proposal, case by case. -/
theorem addMetricsToRes_shapes {M : Type} (Parse : ParseFn M) (batch : List M)
    (flag : String) (x : ServiceProposal) :
    ((flag ≠ "true" ∨ decodeBatch Parse batch freshProposal = none) →
        (addMetricsToRes Parse batch flag (proposalToRes x)).Metrics = none)
      ∧ (flag = "true" → ∀ recs, decodeBatch Parse batch freshProposal = some recs →
          ((∀ q ∈ recs, proposalKey q.1 ≠ proposalKey (proposalToRes x)) →
              (addMetricsToRes Parse batch flag (proposalToRes x)).Metrics
                = some [0x7b, 0x7d])
            ∧ (∀ pre m post, recs = pre ++ m :: post →
                proposalKey m.1 = proposalKey (proposalToRes x) →
                (∀ q ∈ post, proposalKey q.1 ≠ proposalKey (proposalToRes x)) →
                (addMetricsToRes Parse batch flag (proposalToRes x)).Metrics = m.2)) := by
  by_cases hflag : flag = "true"
  · have hstep : addMetricsToRes Parse batch flag = addMetrics Parse batch := by
      simp [addMetricsToRes, hflag]
    rw [hstep]
    refine ⟨?_, ?_⟩
    · rintro (hne | hd)
      · exact absurd hflag hne
      · rw [addMetrics_of_undecoded Parse batch hd]; rfl
    · intro _ recs hd
      refine ⟨?_, ?_⟩
      · intro hnone
        rw [addMetrics_of_decoded Parse batch recs hd, mapLookup_fill_absent _ recs [] hnone]
        rfl
      · intro pre m post hsplit hkey hlast
        rw [addMetrics_of_decoded Parse batch recs hd, hsplit,
          mapLookup_fill_last _ [] pre post m hkey hlast]
  · have hstep : addMetricsToRes Parse batch flag = noMetrics := by
      simp [addMetricsToRes, hflag]
    rw [hstep]
    exact ⟨fun _ => rfl, fun h => absurd h hflag⟩

/-- The metrics that the step selected by the flag gives to the representation
of a proposal are omitted in three cases only: no enrichment asked, a batch that
does not decode, or a last matching record whose payload has no byte. -/
theorem addMetricsToRes_omitted_iff {M : Type} (Parse : ParseFn M) (batch : List M)
    (flag : String) (x : ServiceProposal) :
    metricsOmitted (addMetricsToRes Parse batch flag (proposalToRes x)).Metrics = true
      ↔ (flag ≠ "true" ∨ decodeBatch Parse batch freshProposal = none
        ∨ ∃ pre m post, decodeBatch Parse batch freshProposal = some (pre ++ m :: post)
            ∧ proposalKey m.1 = proposalKey (proposalToRes x)
            ∧ (∀ q ∈ post, proposalKey q.1 ≠ proposalKey (proposalToRes x))
            ∧ metricsOmitted m.2 = true) := by
  obtain ⟨hnil, hdec⟩ := addMetricsToRes_shapes Parse batch flag x
  by_cases hflag : flag = "true"
  · cases hd : decodeBatch Parse batch freshProposal with
    | none =>
      rw [hnil (Or.inr hd)]
      exact ⟨fun _ => Or.inr (Or.inl rfl), fun _ => rfl⟩
    | some recs =>
      obtain ⟨hunmatched, hmatched⟩ := hdec hflag recs hd
      rcases last_match_cases (proposalKey (proposalToRes x)) recs with
        hnone | ⟨pre, m, post, hsplit, hkey, hlast⟩
      · rw [hunmatched hnone]
        constructor
        · intro h; exact absurd h (by decide)
        · rintro (hne | hn | ⟨pre, m, post, hsome, hkey, _, _⟩)
          · exact absurd hflag hne
          · cases hn
          · have hmem : m ∈ recs := by
              rw [Option.some.inj hsome]; simp
            exact absurd hkey (hnone m hmem)
      · rw [hmatched pre m post hsplit hkey hlast]
        constructor
        · intro h
          exact Or.inr (Or.inr ⟨pre, m, post, by rw [hsplit], hkey, hlast, h⟩)
        · rintro (hne | hn | ⟨pre', m', post', hsome, hkey', hlast', hom⟩)
          · exact absurd hflag hne
          · cases hn
          · have hrecs : recs = pre' ++ m' :: post' := Option.some.inj hsome
            rw [← hmatched pre' m' post' hrecs hkey' hlast',
              hmatched pre m post hsplit hkey hlast] at hom
            exact hom
  · rw [hnil (Or.inl hflag)]
    exact ⟨fun _ => Or.inl hflag, fun _ => rfl⟩

/-! ## Claims on the wire shapes and on the flag -/

/-- C13, as stated, fails: the request asks for enrichment, the only record of
the batch decodes and has the key of the proposal listed, and yet the metrics of
the output element are omitted, the payload decoded with the record having no
byte. -/
theorem matched_empty_payload_omitted :
    sampleQuery.Get "fetchConnectCounts" = "true"
      ∧ decodeBatch sampleParse (sampleEndpointEmptyPayload.ProposalsMetrics ()) freshProposal
          = some [sampleDecoded "0xP1" "openvpn" []]
      ∧ proposalKey (sampleDecoded "0xP1" "openvpn" []).1
          = proposalKey (proposalToRes sampleProposal)
      ∧ (sampleEndpointEmptyPayload.List sampleParse sampleQuery).response
          = Response.WriteAsJSON ⟨[{ proposalToRes sampleProposal with Metrics := some [] }]⟩
      ∧ metricsOmitted (some []) = true := by
  decide

/-- C13, amended: when proposals are found, `List` writes one element per
proposal, in order, and the metrics of the element of a proposal are `nil` when
the flag is not `true` or the batch does not decode; when the flag is `true` and
the batch decodes they are the two bytes `{}` if no record has the key of the
proposal, and otherwise the payload of the last record with that key. They are
omitted exactly when the flag is not `true`, or the batch does not decode, or
that payload has no byte. -/
theorem List_metrics_wire_shapes {E M : Type} (pe : proposalsEndpoint E M)
    (Parse : ParseFn M) (query : Values) (proposals : List ServiceProposal)
    (hfound : pe.FindProposals (query.Get "providerId") = Except.ok proposals) :
    ∃ body, (pe.List Parse query).response = Response.WriteAsJSON body
      ∧ body.Proposals.length = proposals.length
      ∧ ∀ (i : Nat) (x : ServiceProposal) (r : proposalRes),
          proposals[i]? = some x → body.Proposals[i]? = some r →
          ((query.Get "fetchConnectCounts" ≠ "true"
              ∨ decodeBatch Parse (pe.ProposalsMetrics ()) freshProposal = none) →
              r.Metrics = none)
          ∧ (query.Get "fetchConnectCounts" = "true" →
              ∀ recs, decodeBatch Parse (pe.ProposalsMetrics ()) freshProposal = some recs →
                ((∀ q ∈ recs, proposalKey q.1 ≠ proposalKey (proposalToRes x)) →
                    r.Metrics = some [0x7b, 0x7d])
                ∧ (∀ pre m post, recs = pre ++ m :: post →
                    proposalKey m.1 = proposalKey (proposalToRes x) →
                    (∀ q ∈ post, proposalKey q.1 ≠ proposalKey (proposalToRes x)) →
                    r.Metrics = m.2))
          ∧ (metricsOmitted r.Metrics = true
              ↔ (query.Get "fetchConnectCounts" ≠ "true"
                ∨ decodeBatch Parse (pe.ProposalsMetrics ()) freshProposal = none
                ∨ ∃ pre m post,
                    decodeBatch Parse (pe.ProposalsMetrics ()) freshProposal
                        = some (pre ++ m :: post)
                    ∧ proposalKey m.1 = proposalKey (proposalToRes x)
                    ∧ (∀ q ∈ post, proposalKey q.1 ≠ proposalKey (proposalToRes x))
                    ∧ metricsOmitted m.2 = true)) := by
  refine ⟨⟨mapProposalsToRes proposals proposalToRes
      (addMetricsToRes Parse (pe.ProposalsMetrics ()) (query.Get "fetchConnectCounts"))⟩,
    List_response_of_found pe Parse query proposals hfound, ?_, ?_⟩
  · simp [mapProposalsToRes_eq_map]
  · intro i x r hx hr
    have hr' : r = addMetricsToRes Parse (pe.ProposalsMetrics ())
        (query.Get "fetchConnectCounts") (proposalToRes x) := by
      simp only [mapProposalsToRes_eq_map, List.getElem?_map, hx, Option.map_some',
        Option.some.injEq] at hr
      exact hr.symm
    subst hr'
    obtain ⟨hnil, hdec⟩ := addMetricsToRes_shapes Parse (pe.ProposalsMetrics ())
      (query.Get "fetchConnectCounts") x
    exact ⟨hnil, hdec, addMetricsToRes_omitted_iff Parse (pe.ProposalsMetrics ())
      (query.Get "fetchConnectCounts") x⟩

/-- The amended C13 at the spec's scenario B, served by `List`. -/
theorem List_metrics_wire_shapes_witness :
    sampleEndpointMatched.FindProposals (sampleQuery.Get "providerId")
        = Except.ok [sampleProposal]
      ∧ ∃ body, (sampleEndpointMatched.List sampleParse sampleQuery).response
            = Response.WriteAsJSON body
        ∧ body.Proposals.length = [sampleProposal].length
        ∧ ∀ (i : Nat) (x : ServiceProposal) (r : proposalRes),
            [sampleProposal][i]? = some x → body.Proposals[i]? = some r →
            ((sampleQuery.Get "fetchConnectCounts" ≠ "true"
                ∨ decodeBatch sampleParse (sampleEndpointMatched.ProposalsMetrics ())
                    freshProposal = none) →
                r.Metrics = none)
            ∧ (sampleQuery.Get "fetchConnectCounts" = "true" →
                ∀ recs, decodeBatch sampleParse (sampleEndpointMatched.ProposalsMetrics ())
                    freshProposal = some recs →
                  ((∀ q ∈ recs, proposalKey q.1 ≠ proposalKey (proposalToRes x)) →
                      r.Metrics = some [0x7b, 0x7d])
                  ∧ (∀ pre m post, recs = pre ++ m :: post →
                      proposalKey m.1 = proposalKey (proposalToRes x) →
                      (∀ q ∈ post, proposalKey q.1 ≠ proposalKey (proposalToRes x)) →
                      r.Metrics = m.2))
            ∧ (metricsOmitted r.Metrics = true
                ↔ (sampleQuery.Get "fetchConnectCounts" ≠ "true"
                  ∨ decodeBatch sampleParse (sampleEndpointMatched.ProposalsMetrics ())
                      freshProposal = none
                  ∨ ∃ pre m post,
                      decodeBatch sampleParse (sampleEndpointMatched.ProposalsMetrics ())
                          freshProposal = some (pre ++ m :: post)
                      ∧ proposalKey m.1 = proposalKey (proposalToRes x)
                      ∧ (∀ q ∈ post, proposalKey q.1 ≠ proposalKey (proposalToRes x))
                      ∧ metricsOmitted m.2 = true)) :=
  ⟨rfl, List_metrics_wire_shapes sampleEndpointMatched sampleParse sampleQuery
    [sampleProposal] rfl⟩

/-- C14: when the value that `Get` returns for `fetchConnectCounts` is not the
string `true`, `List` makes no call to the quality oracle, and when proposals are
found it writes the listing built with `noMetrics`, none of whose elements
carries metrics. -/
theorem List_enriches_only_on_true {E M : Type} (pe : proposalsEndpoint E M)
    (Parse : ParseFn M) (query : Values) (h : query.Get "fetchConnectCounts" ≠ "true") :
    Call.ProposalsMetrics ∉ (pe.List Parse query).calls
      ∧ ∀ proposals, pe.FindProposals (query.Get "providerId") = Except.ok proposals →
          pe.List Parse query
              = { calls := [Call.FindProposals (query.Get "providerId")]
                  response := Response.WriteAsJSON
                    ⟨mapProposalsToRes proposals proposalToRes noMetrics⟩ }
            ∧ ∀ r ∈ mapProposalsToRes proposals proposalToRes noMetrics, r.Metrics = none := by
  refine ⟨?_, ?_⟩
  · cases hf : pe.FindProposals (query.Get "providerId") with
    | error err => simp [proposalsEndpoint.List, hf]
    | ok proposals => simp [proposalsEndpoint.List, hf, h]
  · intro proposals hf
    refine ⟨by simp [proposalsEndpoint.List, hf, h], ?_⟩
    intro r hr
    rw [mapProposalsToRes_eq_map] at hr
    obtain ⟨x, _, rfl⟩ := List.mem_map.mp hr
    rfl

/-- C14 at a request without the flag and at a request with the flag spelled
`TRUE`, both served by an endpoint that finds the sample proposal. -/
theorem List_enriches_only_on_true_witness :
    (sampleQueryAbsent.Get "fetchConnectCounts" ≠ "true"
        ∧ Call.ProposalsMetrics ∉ (sampleEndpointUp.List sampleParse sampleQueryAbsent).calls
        ∧ sampleEndpointUp.List sampleParse sampleQueryAbsent
            = { calls := [Call.FindProposals (sampleQueryAbsent.Get "providerId")]
                response := Response.WriteAsJSON
                  ⟨mapProposalsToRes [sampleProposal] proposalToRes noMetrics⟩ })
      ∧ (sampleQueryUpper.Get "fetchConnectCounts" ≠ "true"
        ∧ Call.ProposalsMetrics ∉ (sampleEndpointUp.List sampleParse sampleQueryUpper).calls
        ∧ sampleEndpointUp.List sampleParse sampleQueryUpper
            = { calls := [Call.FindProposals (sampleQueryUpper.Get "providerId")]
                response := Response.WriteAsJSON
                  ⟨mapProposalsToRes [sampleProposal] proposalToRes noMetrics⟩ }) :=
  ⟨⟨by decide,
      (List_enriches_only_on_true sampleEndpointUp sampleParse sampleQueryAbsent (by decide)).1,
      ((List_enriches_only_on_true sampleEndpointUp sampleParse sampleQueryAbsent
        (by decide)).2 [sampleProposal] rfl).1⟩,
    ⟨by decide,
      (List_enriches_only_on_true sampleEndpointUp sampleParse sampleQueryUpper (by decide)).1,
      ((List_enriches_only_on_true sampleEndpointUp sampleParse sampleQueryUpper
        (by decide)).2 [sampleProposal] rfl).1⟩⟩

end Proposals
